import Mathlib

/-!
Verification of the weighted moving-average filter `wma_f` from
`src/drivers/filters/ma/wma_f.c`.

The C code is embedded shallowly.  The filter works on `float` samples and
accumulates its total in `double`; we keep the two numeric types abstract
(`α` for `float`, `β` for `double`) together with the operations the code
uses, bundled in `FPOps`, so the widening (`toD`) and narrowing (`toF`)
steps of the source stay visible in the model.  A concrete instance over
`ℚ` (exact arithmetic; both widths collapse to `ℚ` and the casts to the
identity) is used to evaluate the model on the concrete inputs of the
reference usage example.

Machine-integer details: `size` is a `uint16_t` and `k` a sample counter in
the C struct (the header `wma_f.h` is not part of the sources; the struct
fields are modelled from the spec, which describes `sampleCount` as a
monotonically increasing count).  Both are modelled as `Nat`; none of the
verified claims concerns counter wrap-around.
-/

/-- Numeric operations the C code uses. `α` plays the role of `float`,
`β` the role of `double`; `toD` is the implicit float-to-double conversion
and `toF` the final explicit narrowing cast `(float)`. -/
structure FPOps (α β : Type) where
  fzero : α
  fadd : α → α → α
  fmul : α → α → α
  toD : α → β
  dzero : β
  dadd : β → β → β
  ddiv : β → β → β
  toF : β → α

/-- Filter instance. Modelled from the spec: the struct `wma_f_t` is declared
in `wma_f.h`, which is not among the sources; field names follow the C code
(`size`, `k`, `avg`, `sum_weight`, `weight`, `buffer`), and the caller-owned
arrays `weight` and `buffer` are modelled as lists. -/
@[ext]
structure wma_f (α : Type) where
  size : Nat
  k : Nat
  avg : α
  sum_weight : α
  weight : List α
  buffer : List α
deriving DecidableEq

/-- Error type returned by `wma_f_init`: `ERROR_NONE` on success,
`ERROR_UNEXPECTEDVALUE` (the spec's `InvalidConfiguration`) when the window
size is zero. -/
inductive error_t where
  | ERROR_NONE
  | ERROR_UNEXPECTEDVALUE
deriving DecidableEq

/-- Embedding of `wma_f_init` (wma_f.c lines 87–102): reject `size == 0`
without mutating anything, otherwise zero `avg`, `k`, `sum_weight` and
accumulate the weights left to right into `sum_weight`. -/
def wma_f_init (ops : FPOps α β) (wma : wma_f α) : error_t × wma_f α :=
  if wma.size = 0 then (error_t.ERROR_UNEXPECTEDVALUE, wma)
  else
    let sw := (List.range wma.size).foldl
      (fun acc i => ops.fadd acc (wma.weight.getD i ops.fzero)) ops.fzero
    (error_t.ERROR_NONE, { wma with avg := ops.fzero, k := 0, sum_weight := sw })

/-- Embedding of `wma_f_add` (wma_f.c lines 114–138): write `x` at ring slot
`k % size`, increment `k`, return during warm-up (`k < size`), otherwise
recompute the weighted total in `β` ("double") over the whole buffer starting
at `current_pos = k % size` and narrow the quotient back to `α` ("float"). -/
def wma_f_add (ops : FPOps α β) (wma : wma_f α) (x : α) : wma_f α :=
  let buffer := wma.buffer.set (wma.k % wma.size) x
  let k := wma.k + 1
  if k < wma.size then { wma with buffer := buffer, k := k }
  else
    let current_pos := k % wma.size
    let total := (List.range wma.size).foldl
      (fun acc i => ops.dadd acc (ops.toD (ops.fmul
        (buffer.getD ((i + current_pos) % wma.size) ops.fzero)
        (wma.weight.getD i ops.fzero)))) ops.dzero
    { wma with
      buffer := buffer,
      k := k,
      avg := ops.toF (ops.ddiv total (ops.toD wma.sum_weight)) }

/-- Running the filter over a list of samples, oldest first. -/
def wma_run (ops : FPOps α β) (wma : wma_f α) (xs : List α) : wma_f α :=
  xs.foldl (wma_f_add ops) wma

/-- Exact-arithmetic instance: both `float` and `double` are interpreted as
`ℚ` and the conversions are the identity. -/
def ratOps : FPOps ℚ ℚ where
  fzero := 0
  fadd := (· + ·)
  fmul := (· * ·)
  toD := id
  dzero := 0
  dadd := (· + ·)
  ddiv := (· / ·)
  toF := id

/-- Integer instance with truncated division, used to evaluate the model on
concrete inputs where exact division is not needed. -/
def intOps : FPOps ℤ ℤ where
  fzero := 0
  fadd := (· + ·)
  fmul := (· * ·)
  toD := id
  dzero := 0
  dadd := (· + ·)
  ddiv := (· / ·)
  toF := id

/-- Specification-side sum of the weights (spec §4.1 `initialize`):
the left-to-right sum of `weights[0..windowSize-1]`, written directly as a
fold over the weights sequence. Named `spec…` because it follows the spec's
words rather than the C loop; the refinement theorems relate the two. -/
def specWeightSum (ops : FPOps α β) (w : List α) : α :=
  w.foldl ops.fadd ops.fzero

/-- Specification-side weighted total (spec §4.1 `addSample` step 4): for
`i` from 0 to `n-1`, accumulate `buf[(i + cursor) mod size] * w[i]` into a
running total in the wide ("double") type, left to right. -/
def specTotal (ops : FPOps α β) (buf w : List α) (size cursor : Nat) : Nat → β
  | 0 => ops.dzero
  | n + 1 => ops.dadd (specTotal ops buf w size cursor n)
      (ops.toD (ops.fmul (buf.getD ((n + cursor) % size) ops.fzero)
        (w.getD n ops.fzero)))

/-- Specification-side alignment total (spec §4.1 alignment policy): the
window listed oldest first, weight `i` multiplying the `i`-th oldest sample,
so weight 0 pairs with the oldest sample and weight `n-1` with the newest. -/
def specPairTotal (ops : FPOps α β) (window w : List α) : Nat → β
  | 0 => ops.dzero
  | n + 1 => ops.dadd (specPairTotal ops window w n)
      (ops.toD (ops.fmul (window.getD n ops.fzero) (w.getD n ops.fzero)))

/-- The filter instance of the reference usage example in the header comment
of wma_f.c: window size 8 with the documented weights. The C example leaves
the buffer uninitialized; it is zero-filled here (its initial contents are
irrelevant to the example's claims, and `wma_f_init` does not read it). -/
def wmaDemo : wma_f ℚ where
  size := 8
  k := 0
  avg := 0
  sum_weight := 0
  weight := [1/10, 1/10, 125/1000, 125/1000, 25/100, 25/100, 5/10, 1]
  buffer := [0, 0, 0, 0, 0, 0, 0, 0]

/-- The ten samples added in the reference usage example, oldest first. -/
def demoSamples : List ℚ :=
  [1, 21/10, -302/10, -353/10, 114/10, 355/10, 306/10, 207/10, 38/10, 109/10]

/-- A zero-window-size instance (arbitrary other fields), exercising the
`InvalidConfiguration` branch of `wma_f_init`. -/
def wmaZeroSize : wma_f ℤ where
  size := 0
  k := 3
  avg := 5
  sum_weight := 7
  weight := [2]
  buffer := [9]

/-- Concrete window-3 instance still warming up (no sample added yet),
used to evaluate the theorems on explicit inputs. -/
def wmaWarm3 : wma_f ℤ where
  size := 3
  k := 0
  avg := 11
  sum_weight := 6
  weight := [1, 2, 3]
  buffer := [0, 0, 0]

/-- Concrete window-3 instance past warm-up (seven samples consumed), used
to evaluate the theorems on explicit inputs. -/
def wmaSteady3 : wma_f ℤ where
  size := 3
  k := 7
  avg := 0
  sum_weight := 6
  weight := [1, 2, 3]
  buffer := [4, 5, 6]

/-- Concrete window-2 instance with stale counters and buffer, used to
evaluate the initialization theorems on explicit inputs. -/
def wmaStale2 : wma_f ℤ where
  size := 2
  k := 5
  avg := 7
  sum_weight := 9
  weight := [2, 4]
  buffer := [8, 3]

/-- Concrete freshly initialized window-2 instance (counter at zero), used
to evaluate run theorems on explicit inputs. -/
def wmaFresh2 : wma_f ℤ where
  size := 2
  k := 0
  avg := 0
  sum_weight := 3
  weight := [1, 2]
  buffer := [0, 0]

/-- Same configuration as `wmaStale2` (size, weights, buffer) but different
stale counters, for the determinism theorem. -/
def wmaStale2b : wma_f ℤ where
  size := 2
  k := 9
  avg := 1
  sum_weight := 0
  weight := [2, 4]
  buffer := [8, 3]

/-- Window-2 instance whose weights are all zero, for the missing-validation
theorem. -/
def wmaZeroW : wma_f ℚ where
  size := 2
  k := 0
  avg := 0
  sum_weight := 5
  weight := [0, 0]
  buffer := [0, 0]

/-- Window-1 instance whose cached weight sum is zero, so the steady-state
recomputation divides by zero. -/
def wmaZeroSum1 : wma_f ℚ where
  size := 1
  k := 0
  avg := 3
  sum_weight := 0
  weight := [0]
  buffer := [7]

/-! ### Small-step lemmas about `wma_f_add` -/

theorem wma_f_add_buffer (ops : FPOps α β) (s : wma_f α) (x : α) :
    (wma_f_add ops s x).buffer = s.buffer.set (s.k % s.size) x := by
  simp only [wma_f_add]
  split <;> rfl

theorem wma_f_add_k (ops : FPOps α β) (s : wma_f α) (x : α) :
    (wma_f_add ops s x).k = s.k + 1 := by
  simp only [wma_f_add]
  split <;> rfl

theorem wma_f_add_size (ops : FPOps α β) (s : wma_f α) (x : α) :
    (wma_f_add ops s x).size = s.size := by
  simp only [wma_f_add]
  split <;> rfl

theorem wma_f_add_weight (ops : FPOps α β) (s : wma_f α) (x : α) :
    (wma_f_add ops s x).weight = s.weight := by
  simp only [wma_f_add]
  split <;> rfl

theorem wma_f_add_sum_weight (ops : FPOps α β) (s : wma_f α) (x : α) :
    (wma_f_add ops s x).sum_weight = s.sum_weight := by
  simp only [wma_f_add]
  split <;> rfl

theorem wma_f_add_avg_warm (ops : FPOps α β) (s : wma_f α) (x : α)
    (h : s.k + 1 < s.size) :
    (wma_f_add ops s x).avg = s.avg := by
  simp only [wma_f_add]
  rw [if_pos h]

theorem foldl_range_eq_specTotal (ops : FPOps α β) (buf w : List α)
    (size cursor : Nat) (n : Nat) :
    (List.range n).foldl
      (fun acc i => ops.dadd acc (ops.toD (ops.fmul
        (buf.getD ((i + cursor) % size) ops.fzero)
        (w.getD i ops.fzero)))) ops.dzero
      = specTotal ops buf w size cursor n := by
  induction n with
  | zero => rfl
  | succ n ih =>
    rw [List.range_succ n, List.foldl_append, ih]
    rfl

theorem wma_f_add_avg_steady (ops : FPOps α β) (s : wma_f α) (x : α)
    (h : ¬ s.k + 1 < s.size) :
    (wma_f_add ops s x).avg =
      ops.toF (ops.ddiv
        (specTotal ops (s.buffer.set (s.k % s.size) x) s.weight s.size
          ((s.k + 1) % s.size) s.size)
        (ops.toD s.sum_weight)) := by
  simp only [wma_f_add]
  rw [if_neg h]
  simp only [foldl_range_eq_specTotal]

/-! ### Lemmas about `wma_run` -/

theorem wma_run_nil (ops : FPOps α β) (s : wma_f α) :
    wma_run ops s [] = s := rfl

theorem wma_run_cons (ops : FPOps α β) (s : wma_f α) (x : α) (xs : List α) :
    wma_run ops s (x :: xs) = wma_run ops (wma_f_add ops s x) xs := rfl

theorem wma_run_append (ops : FPOps α β) (s : wma_f α) (xs ys : List α) :
    wma_run ops s (xs ++ ys) = wma_run ops (wma_run ops s xs) ys :=
  List.foldl_append _ _ _ _

theorem wma_run_k (ops : FPOps α β) (s : wma_f α) (xs : List α) :
    (wma_run ops s xs).k = s.k + xs.length := by
  induction xs generalizing s with
  | nil => rfl
  | cons x xs ih =>
    rw [wma_run_cons, ih, wma_f_add_k, List.length_cons]
    omega

theorem wma_run_size (ops : FPOps α β) (s : wma_f α) (xs : List α) :
    (wma_run ops s xs).size = s.size := by
  induction xs generalizing s with
  | nil => rfl
  | cons x xs ih => rw [wma_run_cons, ih, wma_f_add_size]

theorem wma_run_weight (ops : FPOps α β) (s : wma_f α) (xs : List α) :
    (wma_run ops s xs).weight = s.weight := by
  induction xs generalizing s with
  | nil => rfl
  | cons x xs ih => rw [wma_run_cons, ih, wma_f_add_weight]

theorem wma_run_sum_weight (ops : FPOps α β) (s : wma_f α) (xs : List α) :
    (wma_run ops s xs).sum_weight = s.sum_weight := by
  induction xs generalizing s with
  | nil => rfl
  | cons x xs ih => rw [wma_run_cons, ih, wma_f_add_sum_weight]

theorem wma_run_buffer_length (ops : FPOps α β) (s : wma_f α) (xs : List α) :
    (wma_run ops s xs).buffer.length = s.buffer.length := by
  induction xs generalizing s with
  | nil => rfl
  | cons x xs ih => rw [wma_run_cons, ih, wma_f_add_buffer, List.length_set]

theorem getD_set_self (l : List α) (i : Nat) (a d : α) (h : i < l.length) :
    (l.set i a).getD i d = a := by
  simp [List.getD_eq_getElem, List.length_set, h]

theorem getD_set_of_ne (l : List α) (i j : Nat) (a d : α) (h : i ≠ j) :
    (l.set i a).getD j d = l.getD j d := by
  simp [List.getD, List.getElem?_set_ne h]

/-- Value in the ring buffer after a run: the slot written at step `m`
still holds `xs[m]` provided no later step of the run hit the same slot. -/
theorem wma_run_buffer_getD (ops : FPOps α β) (s : wma_f α) (d : α)
    (hk : s.k = 0) (hsz : 0 < s.size) (hb : s.buffer.length = s.size) :
    ∀ (xs : List α) (m : Nat), m < xs.length →
      (∀ j, m < j → j < xs.length → j % s.size ≠ m % s.size) →
      (wma_run ops s xs).buffer.getD (m % s.size) d = xs.getD m d := by
  intro xs
  induction xs using List.reverseRecOn with
  | nil =>
    intro m hm
    exact absurd hm (by simp)
  | append_singleton l x ih =>
    intro m hm hcol
    rw [wma_run_append]
    have hbl : (wma_run ops s l).buffer.length = s.size := by
      rw [wma_run_buffer_length, hb]
    have hkl : (wma_run ops s l).k = l.length := by
      rw [wma_run_k, hk, Nat.zero_add]
    have hsl : (wma_run ops s l).size = s.size := wma_run_size ops s l
    have hstep : wma_run ops (wma_run ops s l) [x] =
        wma_f_add ops (wma_run ops s l) x := rfl
    rw [hstep, wma_f_add_buffer, hkl, hsl]
    rcases Nat.lt_or_ge m l.length with hlt | hge
    · have hne : l.length % s.size ≠ m % s.size := by
        apply hcol
        · exact hlt
        · simp
      rw [getD_set_of_ne _ _ _ _ _ hne]
      rw [List.getD_append l [x] d m hlt]
      apply ih m hlt
      intro j hj1 hj2 hjm
      exact hcol j hj1 (by simp; omega) hjm
    · have hm' : m = l.length := by
        have : m < l.length + 1 := by simpa using hm
        omega
      subst hm'
      rw [getD_set_self _ _ _ _ (by rw [hbl]; exact Nat.mod_lt _ hsz)]
      rw [List.getD_append_right l [x] d l.length (Nat.le_refl _), Nat.sub_self]
      rfl

/-- Window content after at least `size` samples: the slot at ring position
`(n - size + i) mod size` holds sample `n - size + i`, i.e. the window is
exactly the last `size` samples in arrival order. -/
theorem wma_run_window (ops : FPOps α β) (s : wma_f α) (d : α) (xs : List α)
    (hk : s.k = 0) (hsz : 0 < s.size) (hb : s.buffer.length = s.size)
    (hn : s.size ≤ xs.length) (i : Nat) (hi : i < s.size) :
    (wma_run ops s xs).buffer.getD ((xs.length - s.size + i) % s.size) d
      = xs.getD (xs.length - s.size + i) d := by
  apply wma_run_buffer_getD ops s d hk hsz hb
  · omega
  · intro j hj1 hj2 hjm
    have hdvd : s.size ∣ j - (xs.length - s.size + i) :=
      (Nat.modEq_iff_dvd' (Nat.le_of_lt hj1)).mp hjm.symm
    rcases hdvd with ⟨c, hc⟩
    rcases c with _ | c
    · omega
    · have : s.size * 1 ≤ s.size * (c + 1) :=
        Nat.mul_le_mul_left _ (by omega)
      omega

/-- Average after a run of at least `size` samples, still phrased over the
final buffer: the last add recomputed it with cursor `n % size`. -/
theorem wma_run_avg_steady (ops : FPOps α β) (s : wma_f α) (xs : List α)
    (hk : s.k = 0) (hsz : 0 < s.size) (hn : s.size ≤ xs.length) :
    (wma_run ops s xs).avg =
      ops.toF (ops.ddiv
        (specTotal ops (wma_run ops s xs).buffer s.weight s.size
          (xs.length % s.size) s.size)
        (ops.toD s.sum_weight)) := by
  induction xs using List.reverseRecOn with
  | nil =>
    exfalso
    simp only [List.length_nil, Nat.le_zero] at hn
    omega
  | append_singleton l x ih =>
    clear ih
    rw [wma_run_append]
    have hkl : (wma_run ops s l).k = l.length := by
      rw [wma_run_k, hk, Nat.zero_add]
    have hsl : (wma_run ops s l).size = s.size := wma_run_size ops s l
    have hwl : (wma_run ops s l).weight = s.weight := wma_run_weight ops s l
    have hswl : (wma_run ops s l).sum_weight = s.sum_weight :=
      wma_run_sum_weight ops s l
    have hstep : wma_run ops (wma_run ops s l) [x] =
        wma_f_add ops (wma_run ops s l) x := rfl
    have hsteady : ¬ (wma_run ops s l).k + 1 < (wma_run ops s l).size := by
      rw [hkl, hsl]
      simp only [List.length_append, List.length_cons, List.length_nil] at hn
      omega
    rw [hstep, wma_f_add_avg_steady ops _ x hsteady,
      ← wma_f_add_buffer ops (wma_run ops s l) x, ← hstep,
      ← wma_run_append, hkl, hsl, hwl, hswl]
    have hlen : l.length + 1 = (l ++ [x]).length := by simp
    rw [hlen]

/-- The code's cursor-based total coincides with the specification's
oldest-first pairing whenever the buffer slots read through the cursor agree
with the window list. -/
theorem specTotal_eq_specPairTotal (ops : FPOps α β)
    (buf w window : List α) (size cursor : Nat) (n : Nat)
    (h : ∀ i, i < n →
      buf.getD ((i + cursor) % size) ops.fzero = window.getD i ops.fzero) :
    specTotal ops buf w size cursor n = specPairTotal ops window w n := by
  induction n with
  | zero => rfl
  | succ n ih =>
    simp only [specTotal, specPairTotal]
    rw [ih (fun i hi => h i (Nat.lt_succ_of_lt hi)), h n (Nat.lt_succ_self n)]

theorem getD_drop (l : List α) (j i : Nat) (d : α) :
    (l.drop j).getD i d = l.getD (j + i) d := by
  induction l generalizing j with
  | nil => simp [List.getD]
  | cons a l ih =>
    cases j with
    | zero => rw [Nat.zero_add]; rfl
    | succ j =>
      rw [List.drop_succ_cons, ih j, Nat.succ_add]
      rfl

/-- The C init loop over indices equals the plain left fold over the list,
given that the loop bound is the list's length. -/
theorem foldl_range_getD (f : γ → α → γ) (d : α) :
    ∀ (l : List α) (a : γ),
      (List.range l.length).foldl (fun acc i => f acc (l.getD i d)) a
        = l.foldl f a := by
  intro l
  induction l with
  | nil => intro a; rfl
  | cons x l ih =>
    intro a
    rw [List.length_cons, List.range_succ_eq_map l.length, List.foldl_cons,
      List.foldl_map]
    exact ih (f a x)

/-! ### Lemmas about `wma_f_init` -/

theorem wma_f_init_err (ops : FPOps α β) (s : wma_f α) (h : s.size = 0) :
    wma_f_init ops s = (error_t.ERROR_UNEXPECTEDVALUE, s) := by
  simp [wma_f_init, h]

theorem wma_f_init_ok (ops : FPOps α β) (s : wma_f α) (h : s.size ≠ 0) :
    wma_f_init ops s = (error_t.ERROR_NONE,
      { s with
        avg := ops.fzero,
        k := 0,
        sum_weight := (List.range s.size).foldl
          (fun acc i => ops.fadd acc (s.weight.getD i ops.fzero)) ops.fzero }) := by
  simp [wma_f_init, h]

/-! ### Claim theorems -/

/-- C3: during warm-up — a call to `wma_f_add` after which the sample count
is still strictly below the window size — the average is not recomputed:
`avg` after the call equals its pre-call value. -/
theorem wma_c3_warmup_avg_unchanged (ops : FPOps α β) (s : wma_f α) (x : α)
    (h : s.k + 1 < s.size) :
    (wma_f_add ops s x).avg = s.avg :=
  wma_f_add_avg_warm ops s x h

theorem wma_c3_warmup_avg_unchanged_witness :
    wmaWarm3.k + 1 < wmaWarm3.size
    ∧ (wma_f_add intOps wmaWarm3 42).avg = 11 :=
  ⟨by decide, wma_c3_warmup_avg_unchanged intOps wmaWarm3 42 (by decide)⟩

/-- C4: `wma_f_init` reports `ERROR_UNEXPECTEDVALUE` (the spec's
`InvalidConfiguration`) exactly when the window size is zero, and in that
case it returns the instance completely unchanged: no field is mutated. -/
theorem wma_c4_init_error_iff_zero_size (ops : FPOps α β) (s : wma_f α) :
    ((wma_f_init ops s).1 = error_t.ERROR_UNEXPECTEDVALUE ↔ s.size = 0)
    ∧ (s.size = 0 → (wma_f_init ops s).2 = s) := by
  constructor
  · constructor
    · intro h
      by_contra hne
      rw [wma_f_init_ok ops s hne] at h
      exact absurd h (by simp)
    · intro h
      rw [wma_f_init_err ops s h]
  · intro h
    rw [wma_f_init_err ops s h]

theorem wma_c4_init_error_iff_zero_size_witness :
    (wma_f_init intOps wmaZeroSize).1 = error_t.ERROR_UNEXPECTEDVALUE
    ∧ (wma_f_init intOps wmaZeroSize).2 = wmaZeroSize :=
  ⟨(wma_c4_init_error_iff_zero_size intOps wmaZeroSize).1.mpr (by decide),
   (wma_c4_init_error_iff_zero_size intOps wmaZeroSize).2 (by decide)⟩

/-- C5: for a positive window size and a weights sequence of that length,
`wma_f_init` succeeds and afterwards the sample count is 0, the average is
0, and `sum_weight` is the left-to-right sum of the weights. -/
theorem wma_c5_init_success (ops : FPOps α β) (s : wma_f α)
    (hsz : 0 < s.size) (hw : s.weight.length = s.size) :
    (wma_f_init ops s).1 = error_t.ERROR_NONE
    ∧ (wma_f_init ops s).2.k = 0
    ∧ (wma_f_init ops s).2.avg = ops.fzero
    ∧ (wma_f_init ops s).2.sum_weight = specWeightSum ops s.weight := by
  rw [wma_f_init_ok ops s (by omega)]
  refine ⟨rfl, rfl, rfl, ?_⟩
  show (List.range s.size).foldl
      (fun acc i => ops.fadd acc (s.weight.getD i ops.fzero)) ops.fzero
    = specWeightSum ops s.weight
  rw [← hw]
  exact foldl_range_getD ops.fadd ops.fzero s.weight ops.fzero

theorem wma_c5_init_success_witness :
    0 < wmaDemo.size ∧ wmaDemo.weight.length = wmaDemo.size
    ∧ (wma_f_init ratOps wmaDemo).1 = error_t.ERROR_NONE
    ∧ (wma_f_init ratOps wmaDemo).2.k = 0
    ∧ (wma_f_init ratOps wmaDemo).2.avg = ratOps.fzero
    ∧ (wma_f_init ratOps wmaDemo).2.sum_weight = specWeightSum ratOps wmaDemo.weight := by
  have h := wma_c5_init_success ratOps wmaDemo (by decide) (by decide)
  exact ⟨by decide, by decide, h.1, h.2.1, h.2.2.1, h.2.2.2⟩

/-- C8: under the precondition of a valid window size, `wma_f_add` is safe:
the modulo divisor is non-zero, the write index and every read index it
computes lie strictly below the window size, and the write lands at ring
slot `k mod size`. -/
theorem wma_c8_add_safe (ops : FPOps α β) (s : wma_f α) (x : α)
    (h : 0 < s.size) :
    s.size ≠ 0
    ∧ s.k % s.size < s.size
    ∧ (∀ i, i < s.size → (i + (s.k + 1) % s.size) % s.size < s.size)
    ∧ (wma_f_add ops s x).buffer = s.buffer.set (s.k % s.size) x := by
  refine ⟨by omega, Nat.mod_lt _ h, fun i _ => Nat.mod_lt _ h, ?_⟩
  exact wma_f_add_buffer ops s x

theorem wma_c8_add_safe_witness :
    0 < wmaSteady3.size
    ∧ (wmaSteady3.size ≠ 0
      ∧ wmaSteady3.k % wmaSteady3.size < wmaSteady3.size
      ∧ (∀ i, i < wmaSteady3.size →
          (i + (wmaSteady3.k + 1) % wmaSteady3.size) % wmaSteady3.size
            < wmaSteady3.size)
      ∧ (wma_f_add intOps wmaSteady3 42).buffer
          = wmaSteady3.buffer.set (wmaSteady3.k % wmaSteady3.size) 42) :=
  ⟨by decide, wma_c8_add_safe intOps wmaSteady3 42 (by decide)⟩

/-- C9: a successful `wma_f_init` leaves the buffer contents, the weights
sequence, and the window size exactly as they were: only the counters and
the cached weight sum are touched (stale buffer data is not cleared). -/
theorem wma_c9_init_frame (ops : FPOps α β) (s : wma_f α) (h : 0 < s.size) :
    (wma_f_init ops s).2.buffer = s.buffer
    ∧ (wma_f_init ops s).2.weight = s.weight
    ∧ (wma_f_init ops s).2.size = s.size := by
  rw [wma_f_init_ok ops s (by omega)]
  exact ⟨rfl, rfl, rfl⟩

theorem wma_c9_init_frame_witness :
    0 < wmaStale2.size
    ∧ (wma_f_init intOps wmaStale2).2.buffer = wmaStale2.buffer
    ∧ (wma_f_init intOps wmaStale2).2.weight = wmaStale2.weight
    ∧ (wma_f_init intOps wmaStale2).2.size = wmaStale2.size := by
  have h := wma_c9_init_frame intOps wmaStale2 (by decide)
  exact ⟨by decide, h.1, h.2.1, h.2.2⟩

/-- C1: once the post-increment sample count has reached the window size,
`wma_f_add` recomputes the average as the weighted total — accumulated in
the wide ("double") type, term by term via `toD`, over ring positions
`(i + cursor) mod size` with `cursor = k mod size` taken after the
increment — divided by `sum_weight` and only then narrowed back via `toF`;
and over a fresh run this pairs weight 0 with the oldest sample of the
window and weight `size-1` with the newest. -/
theorem wma_c1_weighted_recompute (ops : FPOps α β) (s : wma_f α) (x : α)
    (s0 : wma_f α) (xs : List α)
    ( _h0 : 0 < s.size) (hfull : s.size ≤ s.k + 1)
    (hsz : 0 < s0.size) (hk : s0.k = 0) (hb : s0.buffer.length = s0.size)
    (hn : s0.size ≤ xs.length) :
    (wma_f_add ops s x).avg =
      ops.toF (ops.ddiv
        (specTotal ops ((wma_f_add ops s x).buffer) s.weight s.size
          ((wma_f_add ops s x).k % s.size) s.size)
        (ops.toD s.sum_weight))
    ∧ (wma_run ops s0 xs).avg =
      ops.toF (ops.ddiv
        (specPairTotal ops (xs.drop (xs.length - s0.size)) s0.weight s0.size)
        (ops.toD s0.sum_weight)) := by
  constructor
  · rw [wma_f_add_buffer, wma_f_add_k]
    exact wma_f_add_avg_steady ops s x (by omega)
  · rw [wma_run_avg_steady ops s0 xs hk hsz hn]
    have htot : specTotal ops (wma_run ops s0 xs).buffer s0.weight s0.size
        (xs.length % s0.size) s0.size
        = specPairTotal ops (xs.drop (xs.length - s0.size)) s0.weight s0.size := by
      apply specTotal_eq_specPairTotal
      intro i hi
      have hidx : (i + xs.length % s0.size) % s0.size
          = (xs.length - s0.size + i) % s0.size := by
        conv_lhs => rw [Nat.mod_eq_sub_mod hn]
        rw [Nat.add_comm (xs.length - s0.size) i]
        exact Nat.ModEq.add_left i (Nat.mod_modEq (xs.length - s0.size) s0.size)
      rw [hidx, getD_drop]
      exact wma_run_window ops s0 ops.fzero xs hk hsz hb hn i hi
    rw [htot]

/-- C2: the slot at ring position `k mod size` (post-increment count) is the
one the next `wma_f_add` overwrites, the sample count after a fresh run is
the number of samples added, and once at least `size` samples are in, the
buffer holds exactly the `size` most recent samples in arrival order around
the ring. -/
theorem wma_c2_ring_window (ops : FPOps α β) (s0 : wma_f α) (xs : List α)
    (hsz : 0 < s0.size) (hk : s0.k = 0) (hb : s0.buffer.length = s0.size) :
    (∀ (t : wma_f α) (y : α),
      (wma_f_add ops t y).buffer = t.buffer.set (t.k % t.size) y)
    ∧ (wma_run ops s0 xs).k = xs.length
    ∧ (s0.size ≤ xs.length → ∀ i, i < s0.size →
        (wma_run ops s0 xs).buffer.getD
            ((xs.length - s0.size + i) % s0.size) ops.fzero
          = xs.getD (xs.length - s0.size + i) ops.fzero) := by
  refine ⟨fun t y => wma_f_add_buffer ops t y, ?_, ?_⟩
  · rw [wma_run_k, hk, Nat.zero_add]
  · intro hn i hi
    exact wma_run_window ops s0 ops.fzero xs hk hsz hb hn i hi

theorem wma_init_states_eq (ops : FPOps α β) (a b : wma_f α)
    (hsz : a.size = b.size) (hw : a.weight = b.weight)
    (hb : a.buffer = b.buffer) (h0 : 0 < a.size) :
    (wma_f_init ops a).2 = (wma_f_init ops b).2 := by
  rw [wma_f_init_ok ops a (by omega), wma_f_init_ok ops b (by omega)]
  cases a
  cases b
  simp_all

theorem foldl_replicate_zero (n : Nat) :
    ∀ a : ℚ, (List.replicate n (0 : ℚ)).foldl (· + ·) a = a := by
  induction n with
  | zero => intro a; rfl
  | succ n ih =>
    intro a
    rw [List.replicate_succ, List.foldl_cons, add_zero]
    exact ih a

/-- C10: `wma_f_init` never validates the weight values — for a positive
window size it succeeds whatever the weights are; with all-zero weights the
cached `sum_weight` is 0, and then every steady-state `wma_f_add` computes
its average as a division whose divisor is zero. -/
theorem wma_c10_no_weight_validation (s : wma_f ℚ) (hsz : 0 < s.size) :
    (wma_f_init ratOps s).1 = error_t.ERROR_NONE
    ∧ (s.weight = List.replicate s.size 0 →
        (wma_f_init ratOps s).2.sum_weight = 0)
    ∧ (∀ (t : wma_f ℚ) (x : ℚ), t.sum_weight = 0 → ¬ t.k + 1 < t.size →
        (wma_f_add ratOps t x).avg =
          specTotal ratOps (t.buffer.set (t.k % t.size) x) t.weight t.size
            ((t.k + 1) % t.size) t.size / 0) := by
  refine ⟨?_, ?_, ?_⟩
  · rw [wma_f_init_ok ratOps s (by omega)]
  · intro h
    rw [wma_f_init_ok ratOps s (by omega)]
    show (List.range s.size).foldl
        (fun acc i => ratOps.fadd acc (s.weight.getD i ratOps.fzero))
        ratOps.fzero = 0
    rw [h]
    have hfold := foldl_range_getD ratOps.fadd ratOps.fzero
      (List.replicate s.size (0 : ℚ)) ratOps.fzero
    rw [List.length_replicate] at hfold
    rw [hfold]
    exact foldl_replicate_zero s.size ratOps.fzero
  · intro t x ht hsteady
    rw [wma_f_add_avg_steady ratOps t x hsteady, ht]
    rfl

theorem wma_c10_no_weight_validation_witness :
    0 < wmaZeroW.size
    ∧ (wma_f_init ratOps wmaZeroW).1 = error_t.ERROR_NONE
    ∧ (wma_f_init ratOps wmaZeroW).2.sum_weight = 0
    ∧ (wma_f_add ratOps wmaZeroSum1 5).avg =
        specTotal ratOps (wmaZeroSum1.buffer.set (wmaZeroSum1.k % wmaZeroSum1.size) 5)
          wmaZeroSum1.weight wmaZeroSum1.size
          ((wmaZeroSum1.k + 1) % wmaZeroSum1.size) wmaZeroSum1.size / 0 := by
  have h := wma_c10_no_weight_validation wmaZeroW (by decide)
  exact ⟨by decide, h.1, h.2.1 rfl, h.2.2 wmaZeroSum1 5 rfl (by decide)⟩

theorem wma_c1_weighted_recompute_witness :
    (0 < wmaSteady3.size ∧ wmaSteady3.size ≤ wmaSteady3.k + 1
      ∧ 0 < wmaFresh2.size ∧ wmaFresh2.k = 0
      ∧ wmaFresh2.buffer.length = wmaFresh2.size
      ∧ wmaFresh2.size ≤ ([10, 20, 30] : List ℤ).length)
    ∧ (wma_f_add intOps wmaSteady3 42).avg =
        intOps.toF (intOps.ddiv
          (specTotal intOps ((wma_f_add intOps wmaSteady3 42).buffer)
            wmaSteady3.weight wmaSteady3.size
            ((wma_f_add intOps wmaSteady3 42).k % wmaSteady3.size)
            wmaSteady3.size)
          (intOps.toD wmaSteady3.sum_weight))
    ∧ (wma_run intOps wmaFresh2 [10, 20, 30]).avg =
        intOps.toF (intOps.ddiv
          (specPairTotal intOps
            (([10, 20, 30] : List ℤ).drop (([10, 20, 30] : List ℤ).length - wmaFresh2.size))
            wmaFresh2.weight wmaFresh2.size)
          (intOps.toD wmaFresh2.sum_weight)) := by
  have h := wma_c1_weighted_recompute intOps wmaSteady3 42 wmaFresh2 [10, 20, 30]
    (by decide) (by decide) (by decide) (by decide) (by decide) (by decide)
  exact ⟨⟨by decide, by decide, by decide, by decide, by decide, by decide⟩,
    h.1, h.2⟩

theorem wma_c2_ring_window_witness :
    (0 < wmaFresh2.size ∧ wmaFresh2.k = 0
      ∧ wmaFresh2.buffer.length = wmaFresh2.size)
    ∧ (wma_f_add intOps wmaSteady3 42).buffer
        = wmaSteady3.buffer.set (wmaSteady3.k % wmaSteady3.size) 42
    ∧ (wma_run intOps wmaFresh2 [10, 20, 30]).k = ([10, 20, 30] : List ℤ).length
    ∧ (wma_run intOps wmaFresh2 [10, 20, 30]).buffer.getD
          ((([10, 20, 30] : List ℤ).length - wmaFresh2.size + 0) % wmaFresh2.size)
          intOps.fzero
        = ([10, 20, 30] : List ℤ).getD
            (([10, 20, 30] : List ℤ).length - wmaFresh2.size + 0) intOps.fzero
    ∧ (wma_run intOps wmaFresh2 [10, 20, 30]).buffer.getD
          ((([10, 20, 30] : List ℤ).length - wmaFresh2.size + 1) % wmaFresh2.size)
          intOps.fzero
        = ([10, 20, 30] : List ℤ).getD
            (([10, 20, 30] : List ℤ).length - wmaFresh2.size + 1) intOps.fzero := by
  have h := wma_c2_ring_window intOps wmaFresh2 [10, 20, 30]
    (by decide) (by decide) (by decide)
  exact ⟨⟨by decide, by decide, by decide⟩, h.1 wmaSteady3 42, h.2.1,
    h.2.2 (by decide) 0 (by decide), h.2.2 (by decide) 1 (by decide)⟩


/-- C6: the reference scenario of the header comment — window size 8,
weights `[0.1, 0.1, 0.125, 0.125, 0.25, 0.25, 0.5, 1.0]` (sum 2.45), samples
`1.0, 2.1, -30.2, -35.3, 11.4, 35.5, 30.6, 20.7, 3.8, 10.9` — evaluated in
exact arithmetic: the average stays at its initial value 0 through the
first seven additions, on the eighth it becomes the oldest-first weighted
average of the eight values, and after the tenth it is the weighted average
of the most recent eight values with the wrapped cursor. -/
theorem wma_c6_reference_scenario :
    (wma_f_init ratOps wmaDemo).1 = error_t.ERROR_NONE
    ∧ (wma_f_init ratOps wmaDemo).2.sum_weight = 49/20
    ∧ (wma_run ratOps (wma_f_init ratOps wmaDemo).2 (demoSamples.take 0)).avg = 0
    ∧ (wma_run ratOps (wma_f_init ratOps wmaDemo).2 (demoSamples.take 1)).avg = 0
    ∧ (wma_run ratOps (wma_f_init ratOps wmaDemo).2 (demoSamples.take 2)).avg = 0
    ∧ (wma_run ratOps (wma_f_init ratOps wmaDemo).2 (demoSamples.take 3)).avg = 0
    ∧ (wma_run ratOps (wma_f_init ratOps wmaDemo).2 (demoSamples.take 4)).avg = 0
    ∧ (wma_run ratOps (wma_f_init ratOps wmaDemo).2 (demoSamples.take 5)).avg = 0
    ∧ (wma_run ratOps (wma_f_init ratOps wmaDemo).2 (demoSamples.take 6)).avg = 0
    ∧ (wma_run ratOps (wma_f_init ratOps wmaDemo).2 (demoSamples.take 7)).avg = 0
    ∧ (wma_run ratOps (wma_f_init ratOps wmaDemo).2 (demoSamples.take 8)).avg
        = (1 * (1/10) + (21/10) * (1/10) + (-302/10) * (125/1000)
            + (-353/10) * (125/1000) + (114/10) * (25/100) + (355/10) * (25/100)
            + (306/10) * (5/10) + (207/10) * 1) / (49/20)
    ∧ (wma_run ratOps (wma_f_init ratOps wmaDemo).2 demoSamples).avg
        = ((-302/10) * (1/10) + (-353/10) * (1/10) + (114/10) * (125/1000)
            + (355/10) * (125/1000) + (306/10) * (25/100) + (207/10) * (25/100)
            + (38/10) * (5/10) + (109/10) * 1) / (49/20) := by
  norm_num [wma_run, wma_f_add, wma_f_init, ratOps, wmaDemo, demoSamples,
    List.range_succ]

/-- Slots no step of the run writes keep their pre-run contents. -/
theorem wma_run_buffer_getD_untouched (ops : FPOps α β) (s : wma_f α) (d : α)
    (hk : s.k = 0) :
    ∀ (xs : List α) (j : Nat), (∀ m, m < xs.length → m % s.size ≠ j) →
      (wma_run ops s xs).buffer.getD j d = s.buffer.getD j d := by
  intro xs
  induction xs using List.reverseRecOn with
  | nil => intro j _; rfl
  | append_singleton l x ih =>
    intro j h
    rw [wma_run_append]
    have hstep : wma_run ops (wma_run ops s l) [x] =
        wma_f_add ops (wma_run ops s l) x := rfl
    rw [hstep, wma_f_add_buffer, wma_run_k, hk, Nat.zero_add, wma_run_size]
    rw [getD_set_of_ne _ _ _ _ _ (h l.length (by simp))]
    exact ih j (fun m hm => h m (by simp only [List.length_append,
      List.length_cons, List.length_nil]; omega))

/-- Slots some step of the run writes hold the sample of the last step that
wrote them; for slot `j < min(size, n)` that step is
`j + size * ((n - 1 - j) / size)`. -/
theorem wma_run_buffer_getD_written (ops : FPOps α β) (s : wma_f α) (d : α)
    (hk : s.k = 0) (hsz : 0 < s.size) (hb : s.buffer.length = s.size)
    (xs : List α) (j : Nat) (hj : j < s.size) (hjn : j < xs.length) :
    (wma_run ops s xs).buffer.getD j d
      = xs.getD (j + s.size * ((xs.length - 1 - j) / s.size)) d := by
  have hmul : s.size * ((xs.length - 1 - j) / s.size) ≤ xs.length - 1 - j := by
    rw [Nat.mul_comm]
    exact Nat.div_mul_le_self _ _
  have hmn : j + s.size * ((xs.length - 1 - j) / s.size) < xs.length := by
    omega
  have hmod : (j + s.size * ((xs.length - 1 - j) / s.size)) % s.size = j := by
    rw [Nat.add_mul_mod_self_left]
    exact Nat.mod_eq_of_lt hj
  have h := wma_run_buffer_getD ops s d hk hsz hb xs
    (j + s.size * ((xs.length - 1 - j) / s.size)) hmn ?_
  · rw [hmod] at h
    exact h
  · intro m hm1 hm2 hmm
    have hge : s.size ≤ m - (j + s.size * ((xs.length - 1 - j) / s.size)) :=
      Nat.le_of_dvd (by omega)
        ((Nat.modEq_iff_dvd' (Nat.le_of_lt hm1)).mp hmm.symm)
    have hdm := Nat.div_add_mod (xs.length - 1 - j) s.size
    have hlt := Nat.mod_lt (xs.length - 1 - j) hsz
    omega

/-- During warm-up (fewer samples than the window size, starting from a
fresh counter) the run never touches the average. -/
theorem wma_run_avg_warm (ops : FPOps α β) (s : wma_f α) (xs : List α)
    (hk : s.k = 0) (hn : xs.length < s.size) :
    (wma_run ops s xs).avg = s.avg := by
  induction xs using List.reverseRecOn with
  | nil => rfl
  | append_singleton l x ih =>
    rw [wma_run_append]
    have hstep : wma_run ops (wma_run ops s l) [x] =
        wma_f_add ops (wma_run ops s l) x := rfl
    simp only [List.length_append, List.length_cons, List.length_nil] at hn
    rw [hstep, wma_f_add_avg_warm ops _ x
      (by rw [wma_run_k, hk, Nat.zero_add, wma_run_size]; omega)]
    exact ih (by omega)

/-- Replaying a run against its own outcome: if `u` is fresh and already
holds the final buffer of the `s`-run, running the same samples from `u`
reproduces that buffer exactly. -/
theorem wma_run_buffer_replay (ops : FPOps α β) (s u : wma_f α)
    (xs : List α) (hk : s.k = 0) (hku : u.k = 0) (hsz : 0 < s.size)
    (hsu : u.size = s.size) (hb : s.buffer.length = s.size)
    (hbu : u.buffer = (wma_run ops s xs).buffer) :
    (wma_run ops u xs).buffer = (wma_run ops s xs).buffer := by
  have hbu_len : u.buffer.length = s.size := by
    rw [hbu, wma_run_buffer_length, hb]
  apply List.ext_getElem
  · rw [wma_run_buffer_length, wma_run_buffer_length, hbu,
      wma_run_buffer_length]
  · intro j h1 h2
    have hj : j < s.size := by
      rwa [wma_run_buffer_length, hbu_len] at h1
    have e1 : (wma_run ops u xs).buffer[j] =
        (wma_run ops u xs).buffer.getD j ops.fzero :=
      (List.getD_eq_getElem (wma_run ops u xs).buffer ops.fzero h1).symm
    have e2 : (wma_run ops s xs).buffer[j] =
        (wma_run ops s xs).buffer.getD j ops.fzero :=
      (List.getD_eq_getElem (wma_run ops s xs).buffer ops.fzero h2).symm
    rw [e1, e2]
    rcases Nat.lt_or_ge j xs.length with hjw | hju
    · rw [wma_run_buffer_getD_written ops u ops.fzero hku
          (by rw [hsu]; exact hsz) (by rw [hsu]; exact hbu_len) xs j
          (by rw [hsu]; exact hj) hjw,
        wma_run_buffer_getD_written ops s ops.fzero hk hsz hb xs j hj hjw,
        hsu]
    · rw [wma_run_buffer_getD_untouched ops u ops.fzero hku xs j
        (fun m hm => by have := Nat.mod_le m u.size; omega), hbu]

/-- Replaying a run from a re-initialized copy of its outcome: a fresh
state `u` agreeing with the fresh `s` on all configuration fields and
carrying the `s`-run's final buffer ends the same run in exactly the same
state. -/
theorem wma_run_replay (ops : FPOps α β) (s u : wma_f α) (xs : List α)
    (hk : s.k = 0) (hku : u.k = 0) (hsz : 0 < s.size) (hsu : u.size = s.size)
    (hwu : u.weight = s.weight) (hswu : u.sum_weight = s.sum_weight)
    (havg : u.avg = s.avg) (hb : s.buffer.length = s.size)
    (hbu : u.buffer = (wma_run ops s xs).buffer) :
    wma_run ops u xs = wma_run ops s xs := by
  apply wma_f.ext
  · rw [wma_run_size, wma_run_size, hsu]
  · rw [wma_run_k, wma_run_k, hk, hku]
  · rcases Nat.lt_or_ge xs.length s.size with hn | hn
    · rw [wma_run_avg_warm ops u xs hku (by rw [hsu]; exact hn),
        wma_run_avg_warm ops s xs hk hn, havg]
    · rw [wma_run_avg_steady ops u xs hku (by rw [hsu]; exact hsz)
          (by rw [hsu]; exact hn),
        wma_run_avg_steady ops s xs hk hsz hn,
        wma_run_buffer_replay ops s u xs hk hku hsz hsu hb hbu,
        hsu, hwu, hswu]
  · rw [wma_run_sum_weight, wma_run_sum_weight, hswu]
  · rw [wma_run_weight, wma_run_weight, hwu]
  · exact wma_run_buffer_replay ops s u xs hk hku hsz hsu hb hbu

/-- C7: the filter is deterministic. Two instances sharing the same
caller-provided configuration (window size, weights, backing buffer
contents) but arbitrary stale counters end in identical states — same
sample count, buffer contents, and average — after initialization and the
same sample sequence; and replaying the same sequence on the re-initialized
outcome of a run reproduces that run's final state exactly. -/
theorem wma_c7_deterministic (ops : FPOps α β) (a b : wma_f α) (xs : List α)
    (hsz : a.size = b.size) (hw : a.weight = b.weight)
    (hb : a.buffer = b.buffer) (h0 : 0 < a.size)
    (hbl : a.buffer.length = a.size) :
    wma_run ops (wma_f_init ops a).2 xs = wma_run ops (wma_f_init ops b).2 xs
    ∧ wma_run ops
        (wma_f_init ops (wma_run ops (wma_f_init ops a).2 xs)).2 xs
      = wma_run ops (wma_f_init ops a).2 xs := by
  have hane : a.size ≠ 0 := by omega
  have hs0 := wma_f_init_ok ops a hane
  have hs0k : (wma_f_init ops a).2.k = 0 := by rw [hs0]
  have hs0size : (wma_f_init ops a).2.size = a.size := by rw [hs0]
  have hs0w : (wma_f_init ops a).2.weight = a.weight := by rw [hs0]
  have hs0avg : (wma_f_init ops a).2.avg = ops.fzero := by rw [hs0]
  have hs0sw : (wma_f_init ops a).2.sum_weight = (List.range a.size).foldl
      (fun acc i => ops.fadd acc (a.weight.getD i ops.fzero)) ops.fzero := by
    rw [hs0]
  have hs0b : (wma_f_init ops a).2.buffer = a.buffer := by rw [hs0]
  have hs1size : (wma_run ops (wma_f_init ops a).2 xs).size = a.size := by
    rw [wma_run_size, hs0size]
  have hs1w : (wma_run ops (wma_f_init ops a).2 xs).weight = a.weight := by
    rw [wma_run_weight, hs0w]
  have hs1ne : (wma_run ops (wma_f_init ops a).2 xs).size ≠ 0 := by
    rw [hs1size]
    omega
  have hu := wma_f_init_ok ops (wma_run ops (wma_f_init ops a).2 xs) hs1ne
  have huk :
      (wma_f_init ops (wma_run ops (wma_f_init ops a).2 xs)).2.k = 0 := by
    rw [hu]
  have husize :
      (wma_f_init ops (wma_run ops (wma_f_init ops a).2 xs)).2.size
        = a.size := by
    rw [hu]
    exact hs1size
  have huw :
      (wma_f_init ops (wma_run ops (wma_f_init ops a).2 xs)).2.weight
        = a.weight := by
    rw [hu]
    exact hs1w
  have huavg :
      (wma_f_init ops (wma_run ops (wma_f_init ops a).2 xs)).2.avg
        = ops.fzero := by
    rw [hu]
  have husw :
      (wma_f_init ops (wma_run ops (wma_f_init ops a).2 xs)).2.sum_weight
        = (wma_f_init ops a).2.sum_weight := by
    rw [hu]
    show (List.range (wma_run ops (wma_f_init ops a).2 xs).size).foldl
        (fun acc i => ops.fadd acc
          ((wma_run ops (wma_f_init ops a).2 xs).weight.getD i ops.fzero))
        ops.fzero
      = (wma_f_init ops a).2.sum_weight
    rw [hs1size, hs1w, hs0sw]
  have hubuf :
      (wma_f_init ops (wma_run ops (wma_f_init ops a).2 xs)).2.buffer
        = (wma_run ops (wma_f_init ops a).2 xs).buffer := by
    rw [hu]
  refine ⟨by rw [wma_init_states_eq ops a b hsz hw hb h0], ?_⟩
  apply wma_run_replay ops (wma_f_init ops a).2 _ xs hs0k huk
  · rw [hs0size]
    exact h0
  · rw [husize, hs0size]
  · rw [huw, hs0w]
  · exact husw
  · rw [huavg, hs0avg]
  · rw [hs0b, hs0size]
    exact hbl
  · exact hubuf

theorem wma_c7_deterministic_witness :
    (wmaStale2.size = wmaStale2b.size ∧ wmaStale2.weight = wmaStale2b.weight
      ∧ wmaStale2.buffer = wmaStale2b.buffer ∧ 0 < wmaStale2.size
      ∧ wmaStale2.buffer.length = wmaStale2.size)
    ∧ wma_run intOps (wma_f_init intOps wmaStale2).2 [10, 20, 30]
        = wma_run intOps (wma_f_init intOps wmaStale2b).2 [10, 20, 30]
    ∧ wma_run intOps
        (wma_f_init intOps
          (wma_run intOps (wma_f_init intOps wmaStale2).2 [10, 20, 30])).2
        [10, 20, 30]
      = wma_run intOps (wma_f_init intOps wmaStale2).2 [10, 20, 30] := by
  have h := wma_c7_deterministic intOps wmaStale2 wmaStale2b [10, 20, 30]
    (by decide) (by decide) (by decide) (by decide) (by decide)
  exact ⟨⟨by decide, by decide, by decide, by decide, by decide⟩, h.1, h.2⟩
